import Mathlib

/-!
Shallow embedding of the `bms_preview` core of the bms-preview-generator
repository (src/src/bms_preview/stereo_audio.rs and
src/src/bms_preview/renderer.rs), together with theorems settling the
frozen claims about its specification.

Modelling conventions:
* `f32`/`f64` sample values, times and ratios are modelled as exact
  rationals (`ℚ`); all concrete inputs used below are exactly
  representable, and the claims under study are about which samples are
  combined with which coefficients, not about rounding.
* Rust machine-integer casts are modelled explicitly: `as isize` on an
  `f64` truncates toward zero (`ratTruncToInt`), `as usize` additionally
  saturates negative values to zero (`Int.toNat`).
* File-system and codec I/O (paths, probing, decoding, the Vorbis
  encoder) are abstracted: a probed source is represented by its decoded
  buffer and duration, file existence by a boolean, and `encode` by the
  sequence of samples it submits to the encoder.
-/

namespace BMSPreview

/-- Rust `as isize` applied to an `f64` value: truncation toward zero
(`stereo_audio.rs:454`, `(time * self.sample_rate as f64) as isize`). -/
def ratTruncToInt (q : ℚ) : ℤ :=
  if 0 ≤ q then ⌊q⌋ else ⌈q⌉

/-- A single sample of audio across two channels
(`StereoSample`, stereo_audio.rs:47-50). Sample values are modelled as ℚ. -/
structure StereoSample where
  left : ℚ
  right : ℚ
deriving DecidableEq, Repr

/-- Component-wise addition of stereo samples (`impl Add for StereoSample`,
stereo_audio.rs:109-117). -/
def StereoSample.add (a b : StereoSample) : StereoSample :=
  ⟨a.left + b.left, a.right + b.right⟩

/-- Scalar multiplication of a stereo sample (`impl Mul<f32> for StereoSample`,
stereo_audio.rs:126-134). -/
def StereoSample.smul (s : StereoSample) (r : ℚ) : StereoSample :=
  ⟨s.left * r, s.right * r⟩

/-- The zero sample, Rust `Default::default()`. -/
def StereoSample.zero : StereoSample := ⟨0, 0⟩

/-- A buffer of stereo audio (`StereoAudio`, stereo_audio.rs:54-57). -/
structure StereoAudio where
  buffer : List StereoSample
  sample_rate : ℕ
deriving DecidableEq

/-- Errors produced by the stereo-audio operations.  Only the variants
used by `stereo_audio.rs` are modelled (the checked-in `errors.rs` is an
older revision of the module that predates them). -/
inductive AudioError where
  | fileNotFound
  | missingCodecInfo
  | invalidCodecInfo
  | mismatchedSampleRate
deriving DecidableEq, Repr

namespace StereoAudio

/-- `StereoAudio::time_to_samples` (stereo_audio.rs:453-455):
`(time * self.sample_rate as f64) as isize`. -/
def time_to_samples (a : StereoAudio) (time : ℚ) : ℤ :=
  ratTruncToInt (time * (a.sample_rate : ℚ))

/-- `StereoAudio::new` (stereo_audio.rs:144-151): a zero-filled buffer of
`(length * 2 * sample_rate) as usize + 1` samples.  The `as usize` cast
truncates toward zero and saturates negative products to 0, which is
`Int.toNat` of the truncation. -/
def new (length : ℚ) (sample_rate : ℕ) : StereoAudio :=
  let samples : ℚ := length * 2 * (sample_rate : ℚ)
  { buffer := List.replicate ((ratTruncToInt samples).toNat + 1) StereoSample.zero
    sample_rate := sample_rate }

/-- `StereoAudio::fade` (stereo_audio.rs:298-321).  The first pass scales
the first `in_samples` samples by `i / in_samples`; the second pass walks
the buffer in reverse and scales the last `out_samples` samples by
`i / in_samples` — the divisor `in_samples` in the second pass is exactly
what line 318 of the source computes.  (When `in_samples = 0` the source
divides by zero in `f32`, producing non-finite values; in ℚ the quotient
is 0.  No claim below depends on that corner.) -/
def fade (a : StereoAudio) (fade_in_time fade_out_time : ℚ) : StereoAudio :=
  let in_samples := a.time_to_samples fade_in_time
  let out_samples := a.time_to_samples fade_out_time
  let pass1 := a.buffer.mapIdx fun i s =>
    if (i : ℤ) < in_samples then s.smul ((i : ℚ) / (in_samples : ℚ)) else s
  let pass2 := (pass1.reverse.mapIdx fun i s =>
    if (i : ℤ) < out_samples then s.smul ((i : ℚ) / (in_samples : ℚ)) else s).reverse
  { a with buffer := pass2 }

/-- The in-place mixing loop of `StereoAudio::add` (stereo_audio.rs:348-353):
`self.buffer[dst_offset..].iter_mut().zip(&rhs.buffer[src_offset..])`
adds the two slices pointwise for as long as both run; the samples of
`dst` before `d` and after the zipped region are left as they were. -/
def mixBuffers (dst src : List StereoSample) (d s : ℕ) : List StereoSample :=
  dst.take d ++
    List.zipWith StereoSample.add (dst.drop d) (src.drop s) ++
    dst.drop (d + (src.length - s))

/-- `StereoAudio::add` (stereo_audio.rs:323-356).  The Rust function
mutates `self` in place and returns `Result<(), AudioError>`; the model
returns the resulting buffer together with the error, so that the
"destination unchanged" half of the error contract is expressible. -/
def add (a : StereoAudio) (rhs : StereoAudio) (offset : ℚ) :
    StereoAudio × Option AudioError :=
  if a.sample_rate ≠ rhs.sample_rate then (a, some .mismatchedSampleRate)
  else
    let raw_offset := a.time_to_samples offset
    let dst_offset := raw_offset.natAbs
    let src_offset := dst_offset
    if 0 ≤ raw_offset ∧ dst_offset < a.buffer.length then
      ({ a with buffer := mixBuffers a.buffer rhs.buffer dst_offset 0 }, none)
    else if raw_offset < 0 ∧ src_offset < rhs.buffer.length then
      ({ a with buffer := mixBuffers a.buffer rhs.buffer 0 src_offset }, none)
    else (a, none)

/-- `StereoAudio::attenuate` (stereo_audio.rs:358-368). -/
def attenuate (a : StereoAudio) (volume : ℚ) : StereoAudio :=
  if volume = 1 then a
  else { a with buffer := a.buffer.map (fun s => s.smul volume) }

end StereoAudio

/-- `ENCODING_CHUNK_SIZE` (stereo_audio.rs:26). -/
def ENCODING_CHUNK_SIZE : ℕ := 1024

/-- The chunking loop of `StereoAudio::encode` (stereo_audio.rs:400-426)
for one channel: each of the `iters` iterations pulls
`ENCODING_CHUNK_SIZE` samples from the (padded) iterator via
`next_array` and submits them; when fewer remain, `next_array` consumes
them and yields `None`, the iteration `continue`s, and every later pull
also fails — so the remaining samples are never submitted. -/
def encodeChunks : ℕ → List ℚ → List ℚ
  | 0, _ => []
  | iters + 1, rest =>
    if ENCODING_CHUNK_SIZE ≤ rest.length then
      rest.take ENCODING_CHUNK_SIZE ++ encodeChunks iters (rest.drop ENCODING_CHUNK_SIZE)
    else []

/-- The samples of one channel that `StereoAudio::encode`
(stereo_audio.rs:370-429) submits to the Vorbis encoder: the channel is
padded with `buffer.len() % ENCODING_CHUNK_SIZE` zeros (line 384) and the
loop runs `(0..buffer.len()).step_by(ENCODING_CHUNK_SIZE)`, i.e.
`⌈buffer.len() / ENCODING_CHUNK_SIZE⌉` times.  The encoder construction,
the stereo/mono block layout and the file I/O are not modelled; the claim
under study concerns which samples reach the encoder. -/
def encodeSubmitted (buffer : List ℚ) : List ℚ :=
  let missing_samples := buffer.length % ENCODING_CHUNK_SIZE
  let padded := buffer ++ List.replicate missing_samples 0
  encodeChunks ((buffer.length + (ENCODING_CHUNK_SIZE - 1)) / ENCODING_CHUNK_SIZE) padded

/-- A position within a BMS chart (`bms_rs` `ObjTime`): a track (measure)
index and a rational position `numerator / denominator` inside it, with
`denominator > 0` in any chart the parser yields. -/
structure ObjTime where
  track : ℕ
  numerator : ℕ
  denominator : ℕ
deriving DecidableEq, Repr

/-- The `bms_rs` ordering of `ObjTime`: by track, then by the rational
position `numerator / denominator` inside the track (spec §4.1: sort by
offset, "breaking ties by track then by numerator/denominator"). -/
def ObjTime.leB (a b : ObjTime) : Bool :=
  a.track < b.track ||
    (a.track == b.track && a.numerator * b.denominator ≤ b.numerator * a.denominator)

/-- Strict version of `ObjTime.leB`, used for the `range(..bound)` query. -/
def ObjTime.ltB (a b : ObjTime) : Bool :=
  a.track < b.track ||
    (a.track == b.track && a.numerator * b.denominator < b.numerator * a.denominator)

/-- A background (BGM) note of the chart: an offset and a keysound id. -/
structure BgmNote where
  offset : ObjTime
  wav_id : ℕ
deriving DecidableEq, Repr

/-- The part of the parsed chart model read by `Renderer::get_wav_timings`
(renderer.rs:27-98).  `bpm_changes` models the `BTreeMap` as an
association list sorted by `ObjTime`; `section_len_changes` and
`wav_files` are the lookup functions of the corresponding maps; `notes`
are the background notes in arbitrary (pre-sort) order. -/
structure Chart where
  initial_bpm : Option ℚ
  bpm_changes : List (ObjTime × ℚ)
  section_len_changes : ℕ → Option ℚ
  notes : List BgmNote
  wav_files : ℕ → Option String

/-- `DEFAULT_BPM` (renderer.rs:31). -/
def DEFAULT_BPM : ℚ := 130

/-- The running state of the timing walk (renderer.rs:33-43). -/
structure TimingState where
  current_bpm : ℚ
  current_section_time : ℚ
  next_section_time : ℚ
  previous_section : ℕ
deriving DecidableEq

/-- `bpm_changes.range(note.offset..).next()` (renderer.rs:79): the first
entry of the sorted map whose key is `≥ offset`. -/
def firstBpmChangeFrom (bpm_changes : List (ObjTime × ℚ)) (offset : ObjTime) : Option ℚ :=
  (bpm_changes.find? (fun p => ObjTime.leB offset p.1)).map Prod.snd

/-- `bpm_changes.range(..ObjTime::new(2, 0, 4)).next()` (renderer.rs:45):
the first entry of the sorted map whose key is `< (track 2, 0/4)`. -/
def seedBpmChange (bpm_changes : List (ObjTime × ℚ)) : Option ℚ :=
  (bpm_changes.find? (fun p => ObjTime.ltB p.1 ⟨2, 0, 4⟩)).map Prod.snd

/-- The per-note body of `Renderer::get_wav_timings` (renderer.rs:57-95),
folded over the sorted background notes.  Decimal-to-float conversions
(`try_into().unwrap_or(..)`) always succeed in the rational model.  The
state update (including the upcoming-BPM lookup) happens for every note;
only the final map insertion is skipped for an unknown `wav_id`
(renderer.rs:84-86).  Each kept note contributes the pair
`(file name, obj_start_seconds)`; the Rust code groups these pairs into a
`HashMap<PathBuf, Vec<f64>>` keyed by `base_path.join(name)`, which the
pair list determines. -/
def wavTimingsWalk (chart : Chart) : TimingState → List BgmNote → List (String × ℚ)
  | _, [] => []
  | st, note :: rest =>
    let current_section_len := (chart.section_len_changes note.offset.track).getD 1
    let section_beats : ℚ := current_section_len * 4
    let seconds_per_beat : ℚ := 60 / st.current_bpm
    let section_seconds := section_beats * seconds_per_beat
    let cur_prev : ℚ × ℕ :=
      if st.previous_section < note.offset.track then
        (st.next_section_time, note.offset.track)
      else
        (st.current_section_time, st.previous_section)
    let obj_offset_seconds :=
      section_seconds * (note.offset.numerator : ℚ) / (note.offset.denominator : ℚ)
    let obj_start_seconds := cur_prev.1 + obj_offset_seconds
    let next_section_time := cur_prev.1 + section_seconds
    let current_bpm := (firstBpmChangeFrom chart.bpm_changes note.offset).getD st.current_bpm
    let st' : TimingState := ⟨current_bpm, cur_prev.1, next_section_time, cur_prev.2⟩
    match chart.wav_files note.wav_id with
    | none => wavTimingsWalk chart st' rest
    | some name => (name, obj_start_seconds) :: wavTimingsWalk chart st' rest

/-- The initial state of the timing walk (renderer.rs:31-48): the chart's
BPM header defaulting to 130, overridden by any BPM change strictly
before track 2. -/
def initialTimingState (chart : Chart) : TimingState :=
  { current_bpm :=
      (seedBpmChange chart.bpm_changes).getD (chart.initial_bpm.getD DEFAULT_BPM)
    current_section_time := 0
    next_section_time := 0
    previous_section := 0 }

/-- `Renderer::get_wav_timings` (renderer.rs:27-98): walk the background
notes sorted by offset (`sorted_by(|a, b| a.offset.cmp(&b.offset))`,
a stable sort) and collect a `(file name, start seconds)` pair for every
note whose `wav_id` is known. -/
def get_wav_timings (chart : Chart) : List (String × ℚ) :=
  wavTimingsWalk chart (initialTimingState chart)
    (chart.notes.mergeSort (fun a b => ObjTime.leB a.offset b.offset))

/-- Whether `Renderer::process_bms_file` returns before doing any work
(renderer.rs:100-109): the chart declares its own preview, or overwriting
is disabled and the preview path already exists.  File-system existence
of `base_path.join(&args.preview_file)` is abstracted as the boolean
`preview_exists`. -/
def processEarlySkip (declared_preview : Option String)
    (overwrite preview_exists : Bool) : Bool :=
  declared_preview.isSome || (!overwrite && preview_exists)

/-- The per-timing window filter of `Renderer::process_bms_file`
(renderer.rs:172-175): keep `t` when `t < end && t + length > start`. -/
def keepTime (start stop length t : ℚ) : Bool :=
  decide (t < stop) && decide (t + length > start)

/-- The filtered timing list of one probed source (renderer.rs:172-175). -/
def filterTimes (times : List ℚ) (start stop length : ℚ) : List ℚ :=
  times.filter (keepTime start stop length)

/-- The mixing step of `Renderer::process_bms_file` for one probed source
(renderer.rs:165-194): if no timing survives the window filter the source
is skipped and the render is returned unchanged (the source is never
loaded); otherwise every surviving `t` is mixed in at `t - start`, with
errors from `add` discarded (`let _ = render.add(..)`).  Loading and
resampling are I/O; the already-loaded, already-resampled source is the
`audio` argument, and `length` is the probed duration. -/
def mixSource (render : StereoAudio) (audio : StereoAudio) (times : List ℚ)
    (start stop length : ℚ) : StereoAudio :=
  let filtered := filterTimes times start stop length
  if filtered.isEmpty then render
  else filtered.foldl (fun r t => (r.add audio (t - start)).1) render

/-! ### Concrete inputs used by counterexamples and witnesses -/

/-- A 5-sample buffer at 1 Hz filled with 1.0: a 5-second constant buffer
used to exercise `fade(2.0, 4.0)`. -/
def fadeProbeBuffer : StereoAudio := ⟨List.replicate 5 ⟨1, 1⟩, 1⟩

/-- A 4-sample destination at rate 2 (2 seconds), all zero. -/
def addDst : StereoAudio :=
  ⟨[StereoSample.zero, StereoSample.zero, StereoSample.zero, StereoSample.zero], 2⟩

/-- A 3-sample source at rate 2 with recognisable values. -/
def addSrc : StereoAudio := ⟨[⟨1, 1⟩, ⟨2, 2⟩, ⟨3, 3⟩], 2⟩

/-- Modelled from the spec's words (§4.3, `add`): identical to
`StereoAudio.add` except that the sample offset is
`raw = ⌊offset_seconds · sample_rate⌋` — the floor the claim prescribes
— instead of the truncation toward zero the source computes.  Used only
to compare the claimed behaviour with the source-translated `add`. -/
def addFloorSpec (a : StereoAudio) (rhs : StereoAudio) (offset : ℚ) :
    StereoAudio × Option AudioError :=
  if a.sample_rate ≠ rhs.sample_rate then (a, some .mismatchedSampleRate)
  else
    let raw_offset := ⌊offset * (a.sample_rate : ℚ)⌋
    let dst_offset := raw_offset.natAbs
    let src_offset := dst_offset
    if 0 ≤ raw_offset ∧ dst_offset < a.buffer.length then
      (⟨StereoAudio.mixBuffers a.buffer rhs.buffer dst_offset 0, a.sample_rate⟩, none)
    else if raw_offset < 0 ∧ src_offset < rhs.buffer.length then
      (⟨StereoAudio.mixBuffers a.buffer rhs.buffer 0 src_offset, a.sample_rate⟩, none)
    else (a, none)

/-- A chart with the constant tempo 60 whose only background note sits in
track 1 — track 0 holds no note, so the interpreter never accumulates the
empty section's duration. -/
def sparseChart : Chart where
  initial_bpm := some 60
  bpm_changes := []
  section_len_changes := fun _ => none
  notes := [⟨⟨1, 0, 4⟩, 0⟩]
  wav_files := fun i => if i = 0 then some "kick.wav" else none

/-- A chart with constant tempo 130 (the default) and notes in tracks 0
and 1, used to witness the amended constant-tempo timing formula. -/
def contiguousChart : Chart where
  initial_bpm := none
  bpm_changes := []
  section_len_changes := fun _ => none
  notes := [⟨⟨0, 1, 4⟩, 0⟩, ⟨⟨1, 0, 4⟩, 1⟩]
  wav_files := fun i =>
    if i = 0 then some "kick.wav" else if i = 1 then some "snare.wav" else none

/-- A chart whose header BPM is the negative decimal −60: the interpreter
then produces a negative start time. -/
def negativeBpmChart : Chart where
  initial_bpm := some (-60)
  bpm_changes := []
  section_len_changes := fun _ => none
  notes := [⟨⟨0, 1, 4⟩, 0⟩]
  wav_files := fun i => if i = 0 then some "kick.wav" else none

/-! ### Helper lemmas -/

theorem ratTruncToInt_toNat (q : ℚ) : (ratTruncToInt q).toNat = ⌊q⌋.toNat := by
  unfold ratTruncToInt
  split
  · rfl
  · rename_i h
    push_neg at h
    have h1 : ⌈q⌉ ≤ 0 := Int.ceil_le.mpr (by exact_mod_cast h.le)
    have h2 : ⌊q⌋ ≤ 0 := le_trans (Int.floor_le_ceil q) h1
    omega

theorem mixBuffers_length (dst src : List StereoSample) (d s : ℕ)
    (hd : d ≤ dst.length) :
    (StereoAudio.mixBuffers dst src d s).length = dst.length := by
  simp only [StereoAudio.mixBuffers, List.length_append, List.length_take,
    List.length_zipWith, List.length_drop]
  omega

theorem mixBuffers_getD (dst src : List StereoSample) (d s : ℕ)
    (hd : d ≤ dst.length) (i : ℕ) (hi : i < dst.length) :
    (StereoAudio.mixBuffers dst src d s).getD i StereoSample.zero =
      if d ≤ i ∧ i - d < src.length - s then
        (dst.getD i StereoSample.zero).add
          (src.getD (s + (i - d)) StereoSample.zero)
      else dst.getD i StereoSample.zero := by
  have hlen := mixBuffers_length dst src d s hd
  have hi' : i < (StereoAudio.mixBuffers dst src d s).length := by omega
  have htake : (List.take d dst).length = d := by
    rw [List.length_take]
    omega
  have hzlen : (List.zipWith StereoSample.add (dst.drop d) (src.drop s)).length
      = min (dst.length - d) (src.length - s) := by
    simp [List.length_zipWith]
  rw [List.getD_eq_getElem _ _ hi', List.getD_eq_getElem _ _ hi]
  unfold StereoAudio.mixBuffers
  by_cases h1 : i < d
  · rw [if_neg (by omega)]
    rw [List.getElem_append_left (by rw [List.length_append, htake, hzlen]; omega)]
    rw [List.getElem_append_left (by rw [htake]; omega)]
    rw [List.getElem_take]
  · by_cases h2 : i - d < src.length - s
    · rw [if_pos ⟨by omega, h2⟩]
      have hs : s + (i - d) < src.length := by omega
      rw [List.getD_eq_getElem _ _ hs]
      rw [List.getElem_append_left (by rw [List.length_append, htake, hzlen]; omega)]
      rw [List.getElem_append_right (by rw [htake]; omega)]
      simp only [htake]
      rw [List.getElem_zipWith, List.getElem_drop, List.getElem_drop]
      have e1 : d + (i - d) = i := by omega
      simp only [e1]
    · rw [if_neg (by omega)]
      have hmin : min (dst.length - d) (src.length - s) = src.length - s := by omega
      rw [List.getElem_append_right (by rw [List.length_append, htake, hzlen, hmin]; omega)]
      simp only [List.length_append, htake, hzlen, hmin]
      rw [List.getElem_drop]
      have e3 : d + (src.length - s) + (i - (d + (src.length - s))) = i := by omega
      simp only [e3]

theorem fade_length (a : StereoAudio) (t u : ℚ) :
    (a.fade t u).buffer.length = a.buffer.length := by
  simp [StereoAudio.fade]

theorem attenuate_length (a : StereoAudio) (v : ℚ) :
    (a.attenuate v).buffer.length = a.buffer.length := by
  unfold StereoAudio.attenuate
  split <;> simp

theorem add_fst_length (a rhs : StereoAudio) (offset : ℚ) :
    ((a.add rhs offset).1).buffer.length = a.buffer.length := by
  unfold StereoAudio.add
  dsimp only
  split
  · rfl
  · split
    · rename_i h
      exact mixBuffers_length _ _ _ _ h.2.le
    · split
      · exact mixBuffers_length _ _ _ _ (Nat.zero_le _)
      · rfl

theorem fade_rate (a : StereoAudio) (t u : ℚ) :
    (a.fade t u).sample_rate = a.sample_rate := rfl

theorem attenuate_rate (a : StereoAudio) (v : ℚ) :
    (a.attenuate v).sample_rate = a.sample_rate := by
  unfold StereoAudio.attenuate
  split <;> rfl

theorem add_fst_rate (a rhs : StereoAudio) (offset : ℚ) :
    ((a.add rhs offset).1).sample_rate = a.sample_rate := by
  unfold StereoAudio.add
  dsimp only
  split
  · rfl
  · split
    · rfl
    · split <;> rfl

theorem firstBpmChangeFrom_mem (bc : List (ObjTime × ℚ)) (o : ObjTime) (v : ℚ)
    (h : firstBpmChangeFrom bc o = some v) : ∃ p ∈ bc, p.2 = v := by
  unfold firstBpmChangeFrom at h
  rcases Option.map_eq_some'.mp h with ⟨p, hp, hv⟩
  exact ⟨p, List.mem_of_find?_eq_some hp, hv⟩

theorem seedBpmChange_mem (bc : List (ObjTime × ℚ)) (v : ℚ)
    (h : seedBpmChange bc = some v) : ∃ p ∈ bc, p.2 = v := by
  unfold seedBpmChange at h
  rcases Option.map_eq_some'.mp h with ⟨p, hp, hv⟩
  exact ⟨p, List.mem_of_find?_eq_some hp, hv⟩

theorem walk_map_fst (chart : Chart) (ns : List BgmNote) :
    ∀ st, (wavTimingsWalk chart st ns).map Prod.fst
      = ns.filterMap (fun n => chart.wav_files n.wav_id) := by
  induction ns with
  | nil => intro st; rfl
  | cons n rest ih =>
    intro st
    rw [wavTimingsWalk]
    cases hw : chart.wav_files n.wav_id
    · simp only [hw, List.filterMap_cons, ih]
    · simp only [hw, List.filterMap_cons, List.map_cons, ih]

theorem walk_nonneg (chart : Chart)
    (hbc : ∀ p ∈ chart.bpm_changes, 0 < p.2)
    (hsec : ∀ t, 0 ≤ (chart.section_len_changes t).getD 1)
    (ns : List BgmNote) :
    ∀ st : TimingState, 0 < st.current_bpm → 0 ≤ st.current_section_time →
      0 ≤ st.next_section_time →
      ∀ pr ∈ wavTimingsWalk chart st ns, 0 ≤ pr.2 := by
  induction ns with
  | nil =>
    intro st _ _ _ pr hpr
    simp [wavTimingsWalk] at hpr
  | cons n rest ih =>
    intro st hbpm hcur hnext pr hpr
    rw [wavTimingsWalk] at hpr
    have hss : 0 ≤ (chart.section_len_changes n.offset.track).getD 1 * 4 *
        (60 / st.current_bpm) :=
      mul_nonneg (mul_nonneg (hsec _) (by norm_num))
        (le_of_lt (div_pos (by norm_num) hbpm))
    have hcur' : 0 ≤ (if st.previous_section < n.offset.track then
        (st.next_section_time, n.offset.track)
      else (st.current_section_time, st.previous_section)).1 := by
      split <;> assumption
    have hoff : 0 ≤ (chart.section_len_changes n.offset.track).getD 1 * 4 *
        (60 / st.current_bpm) * (n.offset.numerator : ℚ) /
        (n.offset.denominator : ℚ) :=
      div_nonneg (mul_nonneg hss (Nat.cast_nonneg _)) (Nat.cast_nonneg _)
    have hbpm' : 0 < (firstBpmChangeFrom chart.bpm_changes n.offset).getD
        st.current_bpm := by
      cases hfb : firstBpmChangeFrom chart.bpm_changes n.offset with
      | none => simpa using hbpm
      | some v =>
        rcases firstBpmChangeFrom_mem _ _ _ hfb with ⟨p, hp, hv⟩
        simpa [hv] using hbc p hp
    cases hw : chart.wav_files n.wav_id
    · simp only [hw] at hpr
      exact ih _ hbpm' hcur' (by positivity) pr hpr
    · simp only [hw, List.mem_cons] at hpr
      rcases hpr with rfl | hpr
      · exact add_nonneg hcur' hoff
      · exact ih _ hbpm' hcur' (by positivity) pr hpr

theorem walk_const_tempo (chart : Chart) (B : ℚ)
    (hbc : ∀ p ∈ chart.bpm_changes, p.2 = B)
    (hsec : ∀ t, (chart.section_len_changes t).getD 1 = 1)
    (ns : List BgmNote) :
    ∀ (p : ℕ) (N : ℚ),
      (∀ n, ns.head? = some n →
        (n.offset.track = p ∨ n.offset.track = p + 1)) →
      List.Chain' (fun a b => a.offset.track ≤ b.offset.track ∧
        b.offset.track ≤ a.offset.track + 1) ns →
      (N = 4 * 60 / B * ((p : ℚ) + 1) ∨
        ∀ n, ns.head? = some n → n.offset.track = p) →
      wavTimingsWalk chart ⟨B, 4 * 60 / B * (p : ℚ), N, p⟩ ns =
        ns.filterMap (fun n => (chart.wav_files n.wav_id).map
          (fun name => (name, 4 * 60 / B * ((n.offset.track : ℚ) +
            (n.offset.numerator : ℚ) / (n.offset.denominator : ℚ))))) := by
  induction ns with
  | nil => intro p N _ _ _; rfl
  | cons n rest ih =>
    intro p N hhead hchain hN
    have hheadrest : ∀ q : ℕ, n.offset.track = q →
        ∀ m, rest.head? = some m →
          (m.offset.track = q ∨ m.offset.track = q + 1) := by
      intro q hq m hm
      cases rest with
      | nil => simp at hm
      | cons m0 rest' =>
        simp only [List.head?_cons, Option.some.injEq] at hm
        subst hm
        have := (List.chain'_cons.mp hchain).1
        omega
    have hbpm' : (firstBpmChangeFrom chart.bpm_changes n.offset).getD B = B := by
      cases hfb : firstBpmChangeFrom chart.bpm_changes n.offset with
      | none => rfl
      | some v =>
        rcases firstBpmChangeFrom_mem _ _ _ hfb with ⟨q, hq, hv⟩
        simp only [Option.getD_some]
        rw [← hv]
        exact hbc q hq
    rw [wavTimingsWalk]
    rcases hhead n rfl with htr | htr
    · -- the note stays in section p: no advance
      rw [htr, if_neg (lt_irrefl p), hsec, hbpm']
      cases hw : chart.wav_files n.wav_id with
      | none =>
        simp only [hw, List.filterMap_cons, Option.map_none']
        convert ih p _ (hheadrest p htr) hchain.tail (Or.inl rfl) using 2
        congr 1
        ring
      | some name =>
        simp only [hw, List.filterMap_cons, Option.map_some']
        congr 1
        · congr 1
          rw [htr]
          ring
        · convert ih p _ (hheadrest p htr) hchain.tail (Or.inl rfl) using 2
          congr 1
          ring
    · -- the note opens section p+1: advance to next_section_time
      have hNval : N = 4 * 60 / B * ((p : ℚ) + 1) := by
        rcases hN with hNval | hforce
        · exact hNval
        · have := hforce n rfl
          omega
      rw [htr, if_pos (Nat.lt_succ_self p), hsec, hbpm', hNval]
      cases hw : chart.wav_files n.wav_id with
      | none =>
        simp only [hw, List.filterMap_cons, Option.map_none']
        convert ih (p + 1) _ (hheadrest (p + 1) htr) hchain.tail (Or.inl rfl) using 2
        congr 1 <;> (push_cast; ring)
      | some name =>
        simp only [hw, List.filterMap_cons, Option.map_some']
        congr 1
        · congr 1
          rw [htr]
          push_cast
          ring
        · convert ih (p + 1) _ (hheadrest (p + 1) htr) hchain.tail (Or.inl rfl) using 2
          congr 1 <;> (push_cast; ring)

/-! ### Claim theorems -/

/-- C10: on every stereo buffer, `fade`, `attenuate` and `add` (on the
destination side) leave the buffer's length in samples and its
`sample_rate` field unchanged; only the sample values may change. -/
theorem c10_frame_preserved (a rhs : StereoAudio) (t u vol off : ℚ) :
    ((a.fade t u).buffer.length = a.buffer.length ∧
      (a.fade t u).sample_rate = a.sample_rate) ∧
    ((a.attenuate vol).buffer.length = a.buffer.length ∧
      (a.attenuate vol).sample_rate = a.sample_rate) ∧
    (((a.add rhs off).1).buffer.length = a.buffer.length ∧
      ((a.add rhs off).1).sample_rate = a.sample_rate) :=
  ⟨⟨fade_length a t u, fade_rate a t u⟩,
   ⟨attenuate_length a vol, attenuate_rate a vol⟩,
   ⟨add_fst_length a rhs off, add_fst_rate a rhs off⟩⟩

/-- C8: `add` reports `MismatchedSampleRate` exactly when the two sample
rates differ, and in that case the destination buffer is unchanged. -/
theorem c8_add_mismatched_rate (a rhs : StereoAudio) (offset : ℚ) :
    ((a.add rhs offset).2 = some AudioError.mismatchedSampleRate ↔
      a.sample_rate ≠ rhs.sample_rate) ∧
    (a.sample_rate ≠ rhs.sample_rate → (a.add rhs offset).1 = a) := by
  by_cases h : a.sample_rate = rhs.sample_rate
  · refine ⟨?_, fun hne => absurd h hne⟩
    unfold StereoAudio.add
    simp only [h, ne_eq, not_true_eq_false, if_false]
    split
    · simp
    · split <;> simp
  · unfold StereoAudio.add
    simp [h]

/-- C8 witness: mismatched rates 1 and 2 produce the error and leave the
destination untouched. -/
theorem c8_add_mismatched_rate_witness :
    (((⟨[⟨5, 7⟩], 1⟩ : StereoAudio).add ⟨[], 2⟩ 0).2 =
        some AudioError.mismatchedSampleRate ↔
      (⟨[⟨5, 7⟩], 1⟩ : StereoAudio).sample_rate ≠
        (⟨[], 2⟩ : StereoAudio).sample_rate) ∧
    ((⟨[⟨5, 7⟩], 1⟩ : StereoAudio).add ⟨[], 2⟩ 0).1 = ⟨[⟨5, 7⟩], 1⟩ :=
  ⟨(c8_add_mismatched_rate ⟨[⟨5, 7⟩], 1⟩ ⟨[], 2⟩ 0).1,
   (c8_add_mismatched_rate ⟨[⟨5, 7⟩], 1⟩ ⟨[], 2⟩ 0).2 (by decide)⟩

/-- C9: `process_bms_file` returns success without rendering exactly when
the chart declares a preview, or overwriting is disabled and the preview
path already exists. -/
theorem c9_early_skip (declared : Option String) (overwrite preview_exists : Bool) :
    processEarlySkip declared overwrite preview_exists = true ↔
      (declared.isSome = true ∨ (overwrite = false ∧ preview_exists = true)) := by
  cases declared <;> cases overwrite <;> cases preview_exists <;>
    simp [processEarlySkip]

/-- C9 witness: a chart with a declared preview is skipped, and with no
declared preview, overwrite off and an existing file it is also skipped. -/
theorem c9_early_skip_witness :
    processEarlySkip (some "p.ogg") true false = true ∧
    processEarlySkip none false true = true :=
  ⟨(c9_early_skip (some "p.ogg") true false).mpr (Or.inl rfl),
   (c9_early_skip none false true).mpr (Or.inr ⟨rfl, rfl⟩)⟩

/-- C4 counterexample: the claim says `new(length, rate)` allocates
`⌈length · 2 · rate⌉ + 1` samples, but `new(3/4, 1)` allocates 2 samples
while `⌈3/4 · 2 · 1⌉ + 1 = 3`: the source truncates (`as usize`) instead
of taking the ceiling. -/
theorem c4_new_not_ceil :
    (StereoAudio.new (3/4) 1).buffer.length = 2 ∧
    (⌈(3/4 : ℚ) * 2 * ((1 : ℕ) : ℚ)⌉ + 1 = 3) ∧ (2 : ℤ) ≠ 3 := by
  refine ⟨?_, ?_, by decide⟩
  · have h : ratTruncToInt ((3/4 : ℚ) * 2 * ((1 : ℕ) : ℚ)) = 1 := by
      unfold ratTruncToInt
      rw [if_pos (by norm_num)]
      norm_num
    simp only [StereoAudio.new, List.length_replicate, h]
    decide
  · have hc : ⌈(3/4 : ℚ) * 2 * ((1 : ℕ) : ℚ)⌉ = 2 := by
      norm_num [Int.ceil_eq_iff]
    rw [hc]
    decide

/-- C4 (amended): `new(length, rate)` returns a buffer of exactly
`⌊length · 2 · rate⌋.toNat + 1` zero samples (truncation instead of
ceiling; a non-positive product yields 1 sample) at the given rate. -/
theorem c4_new_spec (length : ℚ) (rate : ℕ) :
    (StereoAudio.new length rate).buffer.length =
      ⌊length * 2 * (rate : ℚ)⌋.toNat + 1 ∧
    (StereoAudio.new length rate).sample_rate = rate ∧
    ∀ s ∈ (StereoAudio.new length rate).buffer, s = StereoSample.zero := by
  refine ⟨?_, rfl, ?_⟩
  · simp [StereoAudio.new, ratTruncToInt_toNat]
  · intro s hs
    simp only [StereoAudio.new, List.mem_replicate] at hs
    exact hs.2

/-- C4 witness: `new(1/2, 4)` is 5 zero samples at rate 4. -/
theorem c4_new_spec_witness :
    (StereoAudio.new (1/2) 4).buffer.length = 5 ∧
    (StereoAudio.new (1/2) 4).sample_rate = 4 ∧
    ∀ s ∈ (StereoAudio.new (1/2) 4).buffer, s = StereoSample.zero := by
  refine ⟨?_, (c4_new_spec (1/2) 4).2.1, (c4_new_spec (1/2) 4).2.2⟩
  rw [(c4_new_spec (1/2) 4).1]
  norm_num
  decide

/-- C7: a scheduled time `t` of a probed source with duration `d` survives
the preview-window filter exactly when `t < end` and `t + d > start`, and
a source none of whose times survive is skipped: the render is returned
unchanged (the source is never loaded or mixed). -/
theorem c7_window_filter (render audio : StereoAudio) (times : List ℚ)
    (start stop length : ℚ) :
    (∀ t, t ∈ filterTimes times start stop length ↔
      (t ∈ times ∧ t < stop ∧ t + length > start)) ∧
    (filterTimes times start stop length = [] →
      mixSource render audio times start stop length = render) := by
  constructor
  · intro t
    simp [filterTimes, keepTime, List.mem_filter]
  · intro h
    simp [mixSource, h]

/-- C7 witness: with window `[10, 15]` and duration 1, the time 20 is
dropped and the lone-time source is skipped, while 19/2 and 12 survive
the filter on the spec's scenario list. -/
theorem c7_window_filter_witness :
    ((19/2 : ℚ) ∈ filterTimes [5, 19/2, 12, 20] 10 15 1 ∧
      (12 : ℚ) ∈ filterTimes [5, 19/2, 12, 20] 10 15 1 ∧
      ¬ (5 : ℚ) ∈ filterTimes [5, 19/2, 12, 20] 10 15 1 ∧
      ¬ (20 : ℚ) ∈ filterTimes [5, 19/2, 12, 20] 10 15 1) ∧
    mixSource ⟨[⟨1, 1⟩], 48000⟩ ⟨[⟨2, 2⟩], 48000⟩ [20] 10 15 1 =
      ⟨[⟨1, 1⟩], 48000⟩ := by
  have hmem := (c7_window_filter ⟨[⟨1, 1⟩], 48000⟩ ⟨[⟨2, 2⟩], 48000⟩
    [5, 19/2, 12, 20] 10 15 1).1
  have hskip := (c7_window_filter ⟨[⟨1, 1⟩], 48000⟩ ⟨[⟨2, 2⟩], 48000⟩
    [20] 10 15 1).2
  refine ⟨⟨?_, ?_, ?_, ?_⟩, ?_⟩
  · exact (hmem (19/2)).mpr (by norm_num)
  · exact (hmem 12).mpr (by norm_num)
  · intro hc
    have := ((hmem 5).mp hc).2.2
    norm_num at this
  · intro hc
    have := ((hmem 20).mp hc).2.1
    norm_num at this
  · refine hskip ?_
    simp [filterTimes, keepTime, List.filter]
    norm_num

/-- C1: the fade-out pass of `fade` multiplies the last `n_out` samples
by `i / n_in`, not by `i / n_out` as the claim states.  On a 5-second
constant buffer at 1 Hz, `fade(2.0, 4.0)` (so `n_in = 2`, `n_out = 4`)
produces left-channel samples `[0, 3/4, 1, 1/2, 0]`, whereas the claimed
fade-out ratios `i / 4` would produce `[0, 3/8, 1/2, 1/4, 0]`; the
fade-out coefficient `3/2 = 3 / n_in` even exceeds 1. -/
theorem c1_fade_out_divides_by_fade_in :
    (fadeProbeBuffer.fade 2 4).buffer.map StereoSample.left = [0, 3/4, 1, 1/2, 0] ∧
    (fadeProbeBuffer.fade 2 4).buffer.map StereoSample.left ≠ [0, 3/8, 1/2, 1/4, 0] := by
  have heval : (fadeProbeBuffer.fade 2 4).buffer.map StereoSample.left
      = [0, 3/4, 1, 1/2, 0] := by
    norm_num [fadeProbeBuffer, StereoAudio.fade, StereoAudio.time_to_samples, ratTruncToInt,
      StereoSample.smul, List.replicate, List.mapIdx_cons]
  refine ⟨heval, ?_⟩
  rw [heval]
  norm_num

/-- C2: on a buffer of 1025 samples, `encode` pads with
`1025 % 1024 = 1` zero (length 1026, not a multiple of 1024) and its
chunking loop submits only the first 1024 samples: the 1025th sample of
the buffer is never encoded, contradicting the claim that the padding
reaches a multiple of the chunk size and every sample is encoded. -/
theorem c2_encode_drops_tail :
    ((List.replicate 1025 (1 : ℚ)).length +
        (List.replicate 1025 (1 : ℚ)).length % ENCODING_CHUNK_SIZE) %
        ENCODING_CHUNK_SIZE ≠ 0 ∧
    encodeSubmitted (List.replicate 1025 (1 : ℚ)) = List.replicate 1024 1 ∧
    (encodeSubmitted (List.replicate 1025 (1 : ℚ))).length <
      (List.replicate 1025 (1 : ℚ)).length := by
  have key : encodeSubmitted (List.replicate 1025 (1 : ℚ)) = List.replicate 1024 1 := by
    unfold encodeSubmitted
    simp only [List.length_replicate, ENCODING_CHUNK_SIZE]
    norm_num
    show encodeChunks (1 + 1) _ = _
    rw [encodeChunks]
    rw [if_pos (by norm_num [ENCODING_CHUNK_SIZE, List.length_append])]
    rw [encodeChunks]
    rw [if_neg (by norm_num [ENCODING_CHUNK_SIZE, List.length_drop, List.length_append])]
    rw [List.append_nil]
    rw [List.take_append_of_le_length (by norm_num [ENCODING_CHUNK_SIZE])]
    rw [List.take_replicate]
    norm_num [ENCODING_CHUNK_SIZE]
  refine ⟨by norm_num [ENCODING_CHUNK_SIZE], key, ?_⟩
  rw [key]
  norm_num

/-- C5 counterexample: the claim prescribes `raw = ⌊offset · rate⌋`, but
the source truncates toward zero (`as isize`).  At rate 2 with
`offset = -3/4` the product is `-3/2`: truncation gives `raw = -1`
(trim 1 source sample), the claimed floor gives `raw = -2` (trim 2), and
the two mixes differ.  `addFloorSpec` is the spec-worded variant. -/
theorem c5_add_floor_differs :
    (addDst.add addSrc (-3/4)).1.buffer =
      [⟨2, 2⟩, ⟨3, 3⟩, StereoSample.zero, StereoSample.zero] ∧
    (addFloorSpec addDst addSrc (-3/4)).1.buffer =
      [⟨3, 3⟩, StereoSample.zero, StereoSample.zero, StereoSample.zero] ∧
    (addDst.add addSrc (-3/4)).1.buffer ≠
      (addFloorSpec addDst addSrc (-3/4)).1.buffer := by
  have htr : addDst.time_to_samples (-3/4) = -1 := by
    unfold StereoAudio.time_to_samples ratTruncToInt
    rw [if_neg (by norm_num [addDst])]
    norm_num [addDst, Int.ceil_eq_iff]
  have hfl : ⌊(-3/4 : ℚ) * ((addDst.sample_rate : ℕ) : ℚ)⌋ = -2 := by
    norm_num [addDst, Int.floor_eq_iff]
  have h1 : (addDst.add addSrc (-3/4)).1.buffer =
      [⟨2, 2⟩, ⟨3, 3⟩, StereoSample.zero, StereoSample.zero] := by
    unfold StereoAudio.add
    rw [if_neg (by norm_num [addDst, addSrc])]
    rw [htr]
    norm_num [addDst, addSrc, StereoAudio.mixBuffers, List.take, List.drop,
      List.zipWith, StereoSample.add, StereoSample.zero]
  have h2 : (addFloorSpec addDst addSrc (-3/4)).1.buffer =
      [⟨3, 3⟩, StereoSample.zero, StereoSample.zero, StereoSample.zero] := by
    unfold addFloorSpec
    rw [if_neg (by norm_num [addDst, addSrc])]
    rw [hfl]
    norm_num [addDst, addSrc, StereoAudio.mixBuffers, List.take, List.drop,
      List.zipWith, StereoSample.add, StereoSample.zero]
  refine ⟨h1, h2, ?_⟩
  rw [h1, h2]
  norm_num [StereoSample.zero]

/-- C5 (amended): with equal sample rates, `add` succeeds and mixes with
`raw` the truncation toward zero of `offset_seconds · sample_rate` (the
floor only for non-negative products): for `raw ≥ 0` below the
destination length the source is added starting at destination index
`raw`; for `raw < 0` with `|raw|` below the source length the first
`|raw|` source samples are trimmed; otherwise the destination is
untouched. -/
theorem c5_add_trunc_spec (a rhs : StereoAudio) (offset : ℚ)
    (h : a.sample_rate = rhs.sample_rate) :
    (a.add rhs offset).2 = none ∧
    ∀ i, i < a.buffer.length →
      ((a.add rhs offset).1).buffer.getD i StereoSample.zero =
        (let raw := a.time_to_samples offset
         if 0 ≤ raw ∧ raw.natAbs < a.buffer.length then
           if raw.natAbs ≤ i ∧ i - raw.natAbs < rhs.buffer.length then
             (a.buffer.getD i StereoSample.zero).add
               (rhs.buffer.getD (i - raw.natAbs) StereoSample.zero)
           else a.buffer.getD i StereoSample.zero
         else if raw < 0 ∧ raw.natAbs < rhs.buffer.length then
           if i + raw.natAbs < rhs.buffer.length then
             (a.buffer.getD i StereoSample.zero).add
               (rhs.buffer.getD (raw.natAbs + i) StereoSample.zero)
           else a.buffer.getD i StereoSample.zero
         else a.buffer.getD i StereoSample.zero) := by
  unfold StereoAudio.add
  rw [if_neg (by simp [h])]
  refine ⟨?_, ?_⟩
  · dsimp only
    split
    · rfl
    · split <;> rfl
  · intro i hi
    dsimp only
    split
    · rename_i hc1
      dsimp only
      rw [mixBuffers_getD _ _ _ _ (Nat.le_of_lt hc1.2) i hi]
      simp only [Nat.sub_zero, Nat.zero_add]
    · rename_i hc1
      split
      · rename_i hc2
        dsimp only
        rw [mixBuffers_getD _ _ _ _ (Nat.zero_le _) i hi]
        by_cases hc : i + (a.time_to_samples offset).natAbs < rhs.buffer.length
        · rw [if_pos hc, if_pos (by omega)]
          simp only [Nat.sub_zero]
        · rw [if_neg hc, if_neg (by omega)]
      · rfl

/-- C5 witness: at the concrete rate-2 buffers with `offset = -3/4`
(truncated sample offset `-1`), `add` succeeds and destination sample 0
receives source sample 1. -/
theorem c5_add_trunc_spec_witness :
    (addDst.add addSrc (-3/4)).2 = none ∧
    (addDst.add addSrc (-3/4)).1.buffer.getD 0 StereoSample.zero = ⟨2, 2⟩ := by
  have hmain := c5_add_trunc_spec addDst addSrc (-3/4) rfl
  refine ⟨hmain.1, ?_⟩
  have h0 := hmain.2 0 (by norm_num [addDst])
  rw [h0]
  have htr : addDst.time_to_samples (-3/4) = -1 := by
    unfold StereoAudio.time_to_samples ratTruncToInt
    rw [if_neg (by norm_num [addDst])]
    norm_num [addDst, Int.ceil_eq_iff]
  rw [htr]
  norm_num [addDst, addSrc, StereoSample.add, StereoSample.zero]

/-- C6 counterexample: the claim asserts non-negative start times for
every chart, but a chart whose header declares the (negative) decimal
BPM −60 yields `seconds_per_beat = −1`, and its note at `(0, 1, 4)` is
assigned the start time −1. -/
theorem c6_negative_time_counterexample :
    get_wav_timings negativeBpmChart = [("kick.wav", -1)] ∧ ¬ (0 : ℚ) ≤ -1 := by
  refine ⟨?_, by norm_num⟩
  unfold get_wav_timings
  rw [show negativeBpmChart.notes.mergeSort
        (fun a b => ObjTime.leB a.offset b.offset) = negativeBpmChart.notes from
      List.mergeSort_of_sorted (by simp [negativeBpmChart])]
  show wavTimingsWalk _ _ [⟨⟨0, 1, 4⟩, 0⟩] = _
  rw [wavTimingsWalk]
  have hst : initialTimingState negativeBpmChart =
      ⟨-60, 0, 0, 0⟩ := by
    norm_num [initialTimingState, negativeBpmChart, seedBpmChange, DEFAULT_BPM]
  rw [hst]
  norm_num [negativeBpmChart, wavTimingsWalk, firstBpmChangeFrom]

/-- C6 (amended): for every chart, unconditionally, the timing map
contains a start time for every background event whose `wav_id` has an
entry in `wav_files` — events with unknown `wav_id` are the only ones
skipped; and if moreover the chart's effective initial BPM and every BPM
in the BPM map are positive and every section length multiplier is
non-negative, then every start time in the map is non-negative. -/
theorem c6_timing_map_total_nonneg (chart : Chart) :
    (get_wav_timings chart).map Prod.fst =
      (chart.notes.mergeSort (fun a b => ObjTime.leB a.offset b.offset)).filterMap
        (fun n => chart.wav_files n.wav_id) ∧
    (0 < chart.initial_bpm.getD DEFAULT_BPM →
      (∀ p ∈ chart.bpm_changes, 0 < p.2) →
      (∀ t, 0 ≤ (chart.section_len_changes t).getD 1) →
      ∀ pr ∈ get_wav_timings chart, 0 ≤ pr.2) := by
  refine ⟨walk_map_fst chart _ _, ?_⟩
  intro hinit hbc hsec pr hpr
  have hbpm0 : 0 < (initialTimingState chart).current_bpm := by
    unfold initialTimingState
    cases hsd : seedBpmChange chart.bpm_changes with
    | none => simpa using hinit
    | some v =>
      rcases seedBpmChange_mem _ _ hsd with ⟨p, hp, hv⟩
      simpa [hv] using hbc p hp
  exact walk_nonneg chart hbc hsec _ _ hbpm0 le_rfl le_rfl pr hpr

/-- C6 witness: on the two-note chart with default tempo, the timing map
lists exactly the two known keysound files, and all start times are
non-negative. -/
theorem c6_timing_map_total_nonneg_witness :
    (get_wav_timings contiguousChart).map Prod.fst = ["kick.wav", "snare.wav"] ∧
    ∀ pr ∈ get_wav_timings contiguousChart, 0 ≤ pr.2 := by
  have h := c6_timing_map_total_nonneg contiguousChart
  refine ⟨?_, h.2 (by norm_num [contiguousChart, DEFAULT_BPM])
    (by simp [contiguousChart]) (by simp [contiguousChart])⟩
  rw [h.1]
  rw [List.mergeSort_of_sorted (by simp [contiguousChart, ObjTime.leB])]
  simp [contiguousChart, List.filterMap_cons]

/-- C3 counterexample: with the single constant tempo 60 and all section
lengths 1, a chart whose only background note sits at ObjTime (1, 0, 4)
is claimed to get start time `(4·60/60)·(1 + 0/4) = 4`, but the
interpreter assigns 0: with no note in track 0, `next_section_time` is
still 0 when the walk advances into track 1, so the empty section's
duration is never accumulated. -/
theorem c3_sparse_track_counterexample :
    get_wav_timings sparseChart = [("kick.wav", 0)] ∧
    (4 * 60 / 60 : ℚ) * ((1 : ℚ) + 0 / 4) = 4 ∧ ((0 : ℚ) ≠ 4) := by
  refine ⟨?_, by norm_num, by norm_num⟩
  unfold get_wav_timings
  rw [show sparseChart.notes.mergeSort
        (fun a b => ObjTime.leB a.offset b.offset) = sparseChart.notes from
      List.mergeSort_of_sorted (by simp [sparseChart])]
  show wavTimingsWalk _ _ [⟨⟨1, 0, 4⟩, 0⟩] = _
  rw [wavTimingsWalk]
  have hst : initialTimingState sparseChart = ⟨60, 0, 0, 0⟩ := by
    norm_num [initialTimingState, sparseChart, seedBpmChange, DEFAULT_BPM]
  rw [hst]
  norm_num [sparseChart, wavTimingsWalk, firstBpmChangeFrom]

/-- C3 (amended): under a single tempo `B` throughout (header BPM and
every BPM-map entry equal `B`) and all section length multipliers 1, and
provided the sorted background-event stream starts in track 0 and never
skips a track (consecutive events' track numbers increase by at most 1,
so every track up to an event's track holds an event), the interpreter
assigns to every background event at ObjTime (track, numerator,
denominator) the start time `(4·60/B)·(track + numerator/denominator)`
seconds; events with unknown `wav_id` are walked but not recorded. -/
theorem c3_constant_tempo_formula (chart : Chart) (B : ℚ) (ns : List BgmNote)
    (hns : ns = chart.notes.mergeSort (fun a b => ObjTime.leB a.offset b.offset))
    (hinit : chart.initial_bpm.getD DEFAULT_BPM = B)
    (hbc : ∀ p ∈ chart.bpm_changes, p.2 = B)
    (hsec : ∀ t, (chart.section_len_changes t).getD 1 = 1)
    (hhead : ∀ n, ns.head? = some n → n.offset.track = 0)
    (hchain : List.Chain' (fun a b => a.offset.track ≤ b.offset.track ∧
      b.offset.track ≤ a.offset.track + 1) ns) :
    get_wav_timings chart = ns.filterMap (fun n => (chart.wav_files n.wav_id).map
      (fun name => (name, 4 * 60 / B * ((n.offset.track : ℚ) +
        (n.offset.numerator : ℚ) / (n.offset.denominator : ℚ))))) := by
  have hbpm0 : (seedBpmChange chart.bpm_changes).getD
      (chart.initial_bpm.getD DEFAULT_BPM) = B := by
    cases hsd : seedBpmChange chart.bpm_changes with
    | none => simpa using hinit
    | some v =>
      rcases seedBpmChange_mem _ _ hsd with ⟨q, hq, hv⟩
      simp only [Option.getD_some]
      rw [← hv]
      exact hbc q hq
  unfold get_wav_timings initialTimingState
  rw [← hns, hbpm0]
  convert walk_const_tempo chart B hbc hsec ns 0 0
    (fun n hn => Or.inl (hhead n hn)) hchain (Or.inr (fun n hn => hhead n hn))
    using 2
  congr 1
  push_cast
  ring

/-- C3 witness: on the two-note chart (tracks 0 and 1, tempo 130), the
interpreter produces exactly the claimed times `(240/130)·(0 + 1/4)` and
`(240/130)·(1 + 0/4)`. -/
theorem c3_constant_tempo_formula_witness :
    get_wav_timings contiguousChart = [("kick.wav", 6/13), ("snare.wav", 24/13)] := by
  have hsorted : contiguousChart.notes.mergeSort
      (fun a b => ObjTime.leB a.offset b.offset) = contiguousChart.notes :=
    List.mergeSort_of_sorted (by simp [contiguousChart, ObjTime.leB])
  have h := c3_constant_tempo_formula contiguousChart 130 contiguousChart.notes
    hsorted.symm
    (by simp [contiguousChart, DEFAULT_BPM])
    (by simp [contiguousChart])
    (by simp [contiguousChart])
    (by
      intro n hn
      simp only [contiguousChart, List.head?_cons, Option.some.injEq] at hn
      rw [← hn])
    (by simp [contiguousChart])
  rw [h]
  show List.filterMap _ ([⟨⟨0, 1, 4⟩, 0⟩, ⟨⟨1, 0, 4⟩, 1⟩] : List BgmNote) = _
  simp only [List.filterMap_cons, List.filterMap_nil, contiguousChart]
  norm_num

end BMSPreview
